import Mathlib

/-!
# Verification of the ApexTrade backtesting and position-accounting engine

Shallow embedding of `backend_fastapi/app/backtesting.py` (class
`BacktestingEngine`) and of the FIFO realised-PnL matcher in
`backend_fastapi/app/routes/metrics.py`.

Conventions of the embedding:
* Python floats are modelled by `ℚ`; the one operation that leaves the
  rationals (the Bollinger rolling standard deviation, a square root) is
  modelled over `ℝ` with `Real.sqrt`.
* pandas `NaN` ("undefined") is modelled by `Option`: a missing value is
  `none`, and a comparison against `none` is `false`, matching the IEEE-754
  comparison semantics the source relies on.
* The per-run mutable attributes of the singleton object
  (`trades`, `signals`, `current_balance`, `position`, `position_size`)
  are gathered in an explicit `EngineState` record that every step
  function threads through.
-/

/-- One open position, the dict built in `_execute_trade`
(`entry_price`, `size`, `stop_loss`, `take_profit`, `entry_time`). -/
structure Position where
  entry_price : ℚ
  size : ℚ
  stop_loss : ℚ
  take_profit : ℚ
  entry_time : ℤ
  deriving DecidableEq, Repr

/-- One ledger entry, the dict appended to `self.trades`.  An OPEN record
carries no `pnl`, `pnl_pct` or `reason` key in the source; those fields are
`none` here. -/
structure TradeRec where
  timestamp : ℤ
  symbol : String
  side : String
  price : ℚ
  quantity : ℚ
  value : ℚ
  pnl : Option ℚ
  pnl_pct : Option ℚ
  balance_before : ℚ
  balance_after : ℚ
  status : String
  reason : Option String
  deriving DecidableEq, Repr

/-- One entry of `self.signals` (the dict `signal_data`). -/
structure SignalRec where
  timestamp : ℤ
  symbol : String
  signal : String
  price : ℚ
  deriving DecidableEq, Repr

/-- The run parameters fixed at the top of `run_backtest`. -/
structure Params where
  symbol : String
  initialBalance : ℚ
  riskPerTrade : ℚ
  stopLossPct : ℚ
  takeProfitPct : ℚ
  deriving DecidableEq, Repr

/-- The mutable per-run state of `BacktestingEngine`. -/
structure EngineState where
  trades : List TradeRec
  signals : List SignalRec
  balance : ℚ
  position : Option Position
  positionSize : ℚ
  deriving DecidableEq, Repr

/-- The trade record appended by each of the three closing blocks of
`_execute_trade` (the blocks differ only in the `reason` string).  Note that
the recorded `price` is the current bar's price, and that the source sets
`balance_before` to `self.current_balance - pnl` after the balance was
already incremented, so it equals the pre-close balance. -/
def closeRecord (P : Params) (ts : ℤ) (price : ℚ) (reason : String)
    (s : EngineState) (p : Position) : TradeRec :=
  let pnl := (price - p.entry_price) * p.size
  { timestamp := ts
    symbol := P.symbol
    side := "SELL"
    price := price
    quantity := p.size
    value := price * p.size
    pnl := some pnl
    pnl_pct := some ((price / p.entry_price - 1) * 100)
    balance_before := (s.balance + pnl) - pnl
    balance_after := s.balance + pnl
    status := "CLOSED"
    reason := some reason }

/-- The state after one of the three closing blocks of `_execute_trade` ran
to completion: balance incremented by `(price - entry) * size`, the close
record appended, the position cleared.

The source divides by `entry_price` while building the record
(`pnl_pct`); for a position with `entry_price = 0` that division raises and
the `except` handler aborts the block with the balance already updated but
the record not appended and the position not cleared — that case is kept
separate in `execute_trade`.  Every position the engine itself opens has a
nonzero entry price. -/
def closedState (P : Params) (ts : ℤ) (price : ℚ) (reason : String)
    (s : EngineState) (p : Position) : EngineState :=
  { s with
    balance := s.balance + (price - p.entry_price) * p.size
    trades := s.trades ++ [closeRecord P ts price reason s p]
    position := none
    positionSize := 0 }

/-- The trade record appended by the opening block of `_execute_trade`. -/
def openRecord (P : Params) (ts : ℤ) (price : ℚ) (s : EngineState) : TradeRec :=
  let posSize := s.balance * P.riskPerTrade / price
  { timestamp := ts
    symbol := P.symbol
    side := "BUY"
    price := price
    quantity := posSize
    value := price * posSize
    pnl := none
    pnl_pct := none
    balance_before := s.balance
    balance_after := s.balance
    status := "OPEN"
    reason := none }

/-- `BacktestingEngine._execute_trade`, one bar.  `price` and `sig` are the
`price` and `signal` entries of `signal_data`, `ts` its `timestamp`.

Faithfulness notes on the exception handler around the body:
* opening with `price = 0` raises `ZeroDivisionError` in
  `risk_amount / current_price` before any attribute is assigned, so the
  state is unchanged;
* closing a position with `entry_price = 0` raises while the record's
  `pnl_pct` is computed, after `self.current_balance += pnl` but before the
  append and before the position is cleared, so only the balance changes. -/
def execute_trade (P : Params) (ts : ℤ) (price : ℚ) (sig : String)
    (s : EngineState) : EngineState :=
  if s.position = none ∧ sig = "BUY" then
    if price = 0 then s
    else
      let posSize := s.balance * P.riskPerTrade / price
      { s with
        position := some
          { entry_price := price
            size := posSize
            stop_loss := price * (1 - P.stopLossPct)
            take_profit := price * (1 + P.takeProfitPct)
            entry_time := ts }
        positionSize := posSize
        trades := s.trades ++ [openRecord P ts price s] }
  else
    match s.position with
    | some p =>
        if price ≤ p.stop_loss then
          if p.entry_price = 0 then
            { s with balance := s.balance + (price - p.entry_price) * p.size }
          else closedState P ts price "STOP_LOSS" s p
        else if p.take_profit ≤ price then
          if p.entry_price = 0 then
            { s with balance := s.balance + (price - p.entry_price) * p.size }
          else closedState P ts price "TAKE_PROFIT" s p
        else if sig = "SELL" then
          if p.entry_price = 0 then
            { s with balance := s.balance + (price - p.entry_price) * p.size }
          else closedState P ts price "SIGNAL" s p
        else s
    | none => s

/-! ### Concrete fixtures used by counterexamples and witnesses -/

/-- Default parameters of `run_backtest`. -/
def P0 : Params :=
  { symbol := "BTCUSDT", initialBalance := 10000, riskPerTrade := 2/100,
    stopLossPct := 2/100, takeProfitPct := 4/100 }

/-- A position entered at 100 with stop 98 and take-profit 104. -/
def pos0 : Position :=
  { entry_price := 100, size := 1, stop_loss := 98, take_profit := 104,
    entry_time := 0 }

/-- A state holding `pos0` with balance 1000 and an empty ledger. -/
def st0 : EngineState :=
  { trades := [], signals := [], balance := 1000, position := some pos0,
    positionSize := 1 }

/-! ### FIFO realised-PnL matching (`routes/metrics.py`) -/

/-- One row of the `trades` table as used by
`_calculate_realised_pnl_and_hold_times` (`symbol`, `side`, `size`,
`price`, `ts`). -/
structure MTrade where
  symbol : String
  side : String
  size : ℚ
  price : ℚ
  ts : ℤ
  deriving DecidableEq, Repr

/-- One stored buy awaiting matching, the dict appended to
`positions[symbol]`. -/
structure BuyLot where
  size : ℚ
  price : ℚ
  ts : ℤ
  deriving DecidableEq, Repr

/-- The `while qty_to_sell > 0 and positions[symbol]` loop: match a sell of
`qty` at `sellPrice` against the stored buys in FIFO order.  Returns the
realised pnl accumulated by the loop, the remaining buy queue and the
recorded hold times.  Each iteration matches `min(qty, buy.size)`, records
a hold time, shrinks the head lot and pops it when its size reaches zero;
quantity in excess of all stored buys is silently dropped. -/
def matchSell (sellPrice : ℚ) (sellTs : ℤ) : ℚ → List BuyLot → ℚ × List BuyLot × List ℤ
  | _, [] => (0, [], [])
  | qty, b :: rest =>
    if 0 < qty then
      let m := min qty b.size
      let pnl := (sellPrice - b.price) * m
      let ht := sellTs - b.ts
      if b.size - m ≤ 0 then
        let r := matchSell sellPrice sellTs (qty - m) rest
        (pnl + r.1, r.2.1, ht :: r.2.2)
      else
        (pnl, { b with size := b.size - m } :: rest, [ht])
    else (0, b :: rest, [])

/-- The accumulator of `_calculate_realised_pnl_and_hold_times`: the
`realised_pnl` and `positions` dicts (modelled as total maps with the
defaults that `setdefault` installs) and the `hold_times` list. -/
structure PnlAcc where
  realised : String → ℚ
  positions : String → List BuyLot
  hold_times : List ℤ

/-- Pointwise update of a string-keyed map. -/
def updMap {β : Type} (m : String → β) (k : String) (v : β) : String → β :=
  fun x => if x = k then v else m x

/-- Python's `str.upper()`, modelled character-wise (structurally, so that
it evaluates on literals; the library `String.map` recurses on byte
positions and does not reduce). -/
def pyUpper (s : String) : String := String.mk (s.data.map Char.toUpper)

/-- The body of the `for trade in trades` loop of
`_calculate_realised_pnl_and_hold_times`. -/
def pnlStep (acc : PnlAcc) (t : MTrade) : PnlAcc :=
  let sym := pyUpper t.symbol
  if pyUpper t.side = "BUY" then
    { acc with
      positions := updMap acc.positions sym
        (acc.positions sym ++ [{ size := t.size, price := t.price, ts := t.ts }]) }
  else if pyUpper t.side = "SELL" then
    let r := matchSell t.price t.ts t.size (acc.positions sym)
    { realised := updMap acc.realised sym (acc.realised sym + r.1)
      positions := updMap acc.positions sym r.2.1
      hold_times := acc.hold_times ++ r.2.2 }
  else acc

/-- `_calculate_realised_pnl_and_hold_times`: fold the loop body over the
chronologically ordered trades, starting from empty dicts. -/
def calculate_realised_pnl (trades : List MTrade) : PnlAcc :=
  trades.foldl pnlStep { realised := fun _ => 0, positions := fun _ => [], hold_times := [] }

/-! ### Feature calculator (`_prepare_features`)

The features are computed once over the whole price history (the source
calls `_prepare_features(df)` on the full frame before the replay loop).
Each feature is a function of the close-price list and a row index,
returning `none` where pandas produces `NaN`.  `momentum`, `volatility`
and `sma_200` are computed by the source but never read by
`_generate_signal` and are not modelled. -/

/-- The `close` column: `none` out of range. -/
def closeAt (cl : List ℚ) (i : ℕ) : Option ℚ := cl.get? i

/-- `df['close'].diff()`: `NaN` at row 0. -/
def diffAt (cl : List ℚ) (i : ℕ) : Option ℚ :=
  if i = 0 then none
  else
    match cl.get? i, cl.get? (i - 1) with
    | some a, some b => some (a - b)
    | _, _ => none

/-- `delta.where(delta > 0, 0)`: rows where the condition is false —
including the `NaN` row 0, whose comparison is false — become `0`, so the
gain series has no `NaN` inside the frame. -/
def gainAt (cl : List ℚ) (i : ℕ) : Option ℚ :=
  if i < cl.length then
    some (match diffAt cl i with
      | some d => if 0 < d then d else 0
      | none => 0)
  else none

/-- `-delta.where(delta < 0, 0)`. -/
def lossAt (cl : List ℚ) (i : ℕ) : Option ℚ :=
  if i < cl.length then
    some (match diffAt cl i with
      | some d => if d < 0 then -d else 0
      | none => 0)
  else none

/-- All-or-nothing sequencing of a list of optional values (`NaN`
propagation through a rolling window). -/
def seqOption {β : Type} : List (Option β) → Option (List β)
  | [] => some []
  | none :: _ => none
  | some x :: os =>
    match seqOption os with
    | some xs => some (x :: xs)
    | none => none

/-- `series.rolling(window=w).mean()` at row `i`: `NaN` unless the window
is full and every value in it is defined. -/
def rollingMeanAt (f : ℕ → Option ℚ) (w i : ℕ) : Option ℚ :=
  if i + 1 < w then none
  else (seqOption ((List.range w).map fun k => f (i - k))).map fun xs =>
    xs.sum / (w : ℚ)

/-- `gain.rolling(window=14).mean()`. -/
def avgGainAt (cl : List ℚ) (i : ℕ) : Option ℚ := rollingMeanAt (gainAt cl) 14 i

/-- `loss.rolling(window=14).mean()`. -/
def avgLossAt (cl : List ℚ) (i : ℕ) : Option ℚ := rollingMeanAt (lossAt cl) 14 i

/-- The `rsi` column before backfill: `rs = avg_gain / avg_loss`,
`rsi = 100 - 100 / (1 + rs)`.  IEEE division: positive `avg_gain` over a
zero `avg_loss` gives `rs = +inf` hence `rsi = 100`; `0 / 0` gives `NaN`
which propagates. -/
def rsiRawAt (cl : List ℚ) (i : ℕ) : Option ℚ :=
  match avgGainAt cl i, avgLossAt cl i with
  | some g, some l =>
      if l = 0 then (if g = 0 then none else some 100)
      else some (100 - 100 / (1 + g / l))
  | _, _ => none

/-- `df['close'].rolling(window=w).mean()` (`sma_20`, `sma_50`,
`bb_middle`). -/
def smaAt (cl : List ℚ) (w i : ℕ) : Option ℚ := rollingMeanAt (closeAt cl) w i

/-- `series.ewm(span=s, adjust=False).mean()` with `alpha = 2 / (s + 1)`,
for a series with no interior `NaN` (the close and macd series):
`e 0 = x 0`, `e (i+1) = (1 - alpha) * e i + alpha * x (i+1)`. -/
def ewmAt (f : ℕ → Option ℚ) (a : ℚ) : ℕ → Option ℚ
  | 0 => f 0
  | i + 1 =>
    match ewmAt f a i, f (i + 1) with
    | some prev, some c => some ((1 - a) * prev + a * c)
    | _, _ => none

/-- `ema_12`. -/
def ema12At (cl : List ℚ) : ℕ → Option ℚ := ewmAt (closeAt cl) (2 / 13)

/-- `ema_26`. -/
def ema26At (cl : List ℚ) : ℕ → Option ℚ := ewmAt (closeAt cl) (2 / 27)

/-- `macd = ema_12 - ema_26`. -/
def macdAt (cl : List ℚ) (i : ℕ) : Option ℚ :=
  match ema12At cl i, ema26At cl i with
  | some a, some b => some (a - b)
  | _, _ => none

/-- `macd_signal = macd.ewm(span=9, adjust=False).mean()`. -/
def macdSignalAt (cl : List ℚ) : ℕ → Option ℚ := ewmAt (macdAt cl) (1 / 5)

/-- `macd_hist = macd - macd_signal`. -/
def macdHistAt (cl : List ℚ) (i : ℕ) : Option ℚ :=
  match macdAt cl i, macdSignalAt cl i with
  | some a, some b => some (a - b)
  | _, _ => none

/-- The square of `df['close'].rolling(window=20).std()`: the sample
variance (`ddof = 1`, denominator 19) of the 20-bar window, kept in `ℚ`. -/
def bbVarAt (cl : List ℚ) (i : ℕ) : Option ℚ :=
  if i + 1 < 20 then none
  else (seqOption ((List.range 20).map fun k => closeAt cl (i - k))).map fun xs =>
    (xs.map fun x => (x - xs.sum / 20) ^ 2).sum / 19

/-- `bb_std`, the rolling standard deviation itself (a real number). -/
noncomputable def bbStdAt (cl : List ℚ) (i : ℕ) : Option ℝ :=
  (bbVarAt cl i).map fun v => Real.sqrt (v : ℝ)

/-- `bb_upper = bb_middle + 2 * bb_std`. -/
noncomputable def bbUpperAt (cl : List ℚ) (i : ℕ) : Option ℝ :=
  match smaAt cl 20 i, bbStdAt cl i with
  | some m, some s => some ((m : ℝ) + 2 * s)
  | _, _ => none

/-- `bb_lower = bb_middle - 2 * bb_std`. -/
noncomputable def bbLowerAt (cl : List ℚ) (i : ℕ) : Option ℝ :=
  match smaAt cl 20 i, bbStdAt cl i with
  | some m, some s => some ((m : ℝ) - 2 * s)
  | _, _ => none

/-- `df.fillna(method='bfill')`, per column: a `NaN` at row `i` is replaced
by the first defined value at a row `j ≥ i` (within the frame's `len`
rows); trailing `NaN`s stay `NaN`. -/
def bfillAt {β : Type} (f : ℕ → Option β) (len i : ℕ) : Option β :=
  ((List.range (len - i)).map fun k => f (i + k)).findSome? id

/-! ### Signal generator (`_generate_signal`) -/

/-- The feature values of the most recent bar (`latest = df.iloc[-1]`),
restricted to the columns `_generate_signal` reads.  `none` models `NaN`.
The type is polymorphic so that the generator can be stated both over `ℚ`
(all sqrt-free features) and over `ℝ` (as instantiated by the replay,
where the Bollinger bands involve a square root). -/
structure Latest (R : Type) where
  rsi : Option R
  sma_20 : Option R
  sma_50 : Option R
  close : Option R
  macd : Option R
  macd_signal : Option R
  macd_hist : Option R
  bb_upper : Option R
  bb_lower : Option R

/-- A `<` comparison with pandas/IEEE `NaN` semantics: any comparison
against a missing value is false. -/
def oLt {R : Type} [LinearOrder R] (a b : Option R) : Bool :=
  match a, b with
  | some x, some y => decide (x < y)
  | _, _ => false

/-- `BacktestingEngine._generate_signal`, the rule cascade on the latest
bar's features.  Each rule is an `if/elif` that overwrites the running
`signal`; a comparison involving `NaN` is false, so a rule whose inputs
are undefined leaves the previous value.  (The broad `except` returning
HOLD can only fire on a missing column, which cannot happen after
`_prepare_features`, so it is not modelled.) -/
def generate_signal {R : Type} [LinearOrderedField R] (l : Latest R) : String :=
  let s0 := "HOLD"
  let s1 :=
    if oLt l.rsi (some 30) then "BUY"
    else if oLt (some 70) l.rsi then "SELL"
    else s0
  let s2 :=
    if oLt l.sma_50 l.sma_20 && oLt l.sma_20 l.close then "BUY"
    else if oLt l.sma_20 l.sma_50 && oLt l.close l.sma_20 then "SELL"
    else s1
  let s3 :=
    if oLt l.macd_signal l.macd && oLt (some 0) l.macd_hist then "BUY"
    else if oLt l.macd l.macd_signal && oLt l.macd_hist (some 0) then "SELL"
    else s2
  let s4 :=
    if oLt l.close l.bb_lower then "BUY"
    else if oLt l.bb_upper l.close then "SELL"
    else s3
  s4

/-! ### The rule cascade as the spec states it (for the refinement claim) -/

/-- Rule 1 of the spec's cascade: `RSI < 30 → BUY; RSI > 70 → SELL`,
not firing when its input is undefined. -/
def ruleRSI {R : Type} [LinearOrderedField R] (l : Latest R) : Option String :=
  match l.rsi with
  | some r => if r < 30 then some "BUY" else if 70 < r then some "SELL" else none
  | none => none

/-- Rule 2: `SMA(20) > SMA(50) and close > SMA(20) → BUY; inverse → SELL`. -/
def ruleSMA {R : Type} [LinearOrderedField R] (l : Latest R) : Option String :=
  match l.sma_20, l.sma_50, l.close with
  | some a, some b, some c =>
      if b < a ∧ a < c then some "BUY"
      else if a < b ∧ c < a then some "SELL"
      else none
  | _, _, _ => none

/-- Rule 3: `MACD > signal and histogram > 0 → BUY; inverse → SELL`. -/
def ruleMACD {R : Type} [LinearOrderedField R] (l : Latest R) : Option String :=
  match l.macd, l.macd_signal, l.macd_hist with
  | some m, some sg, some h =>
      if sg < m ∧ 0 < h then some "BUY"
      else if m < sg ∧ h < 0 then some "SELL"
      else none
  | _, _, _ => none

/-- Rule 4: `close < lower band → BUY; close > upper band → SELL`.  The
BUY half needs `close` and the lower band, the SELL half `close` and the
upper band; a half whose inputs are undefined does not fire. -/
def ruleBB {R : Type} [LinearOrderedField R] (l : Latest R) : Option String :=
  match l.close with
  | none => none
  | some c =>
    match l.bb_lower with
    | some lo =>
        if c < lo then some "BUY"
        else
          match l.bb_upper with
          | some up => if up < c then some "SELL" else none
          | none => none
    | none =>
        match l.bb_upper with
        | some up => if up < c then some "SELL" else none
        | none => none

/-- The spec's reading of the cascade: evaluate the four rules in order,
let the last rule that fires win, default to HOLD. -/
def lastMatchingRule {R : Type} [LinearOrderedField R] (l : Latest R) : String :=
  ((([ruleRSI l, ruleSMA l, ruleMACD l, ruleBB l]).filterMap id).getLast?).getD "HOLD"

/-- The feature row `df.iloc[-1]` read by `_generate_signal` for bar `i`:
every column of the frame was backfilled (`df = df.fillna(method='bfill')`)
over the full `len`-row history before the replay started, so a `NaN` at
row `i` is filled from rows after `i`.  The `ℚ`-valued columns are cast
into `ℝ` to sit alongside the Bollinger bands. -/
noncomputable def latestAt (cl : List ℚ) (i : ℕ) : Latest ℝ :=
  let n := cl.length
  { rsi := (bfillAt (rsiRawAt cl) n i).map fun q => (q : ℝ)
    sma_20 := (bfillAt (fun j => smaAt cl 20 j) n i).map fun q => (q : ℝ)
    sma_50 := (bfillAt (fun j => smaAt cl 50 j) n i).map fun q => (q : ℝ)
    close := (bfillAt (closeAt cl) n i).map fun q => (q : ℝ)
    macd := (bfillAt (macdAt cl) n i).map fun q => (q : ℝ)
    macd_signal := (bfillAt (macdSignalAt cl) n i).map fun q => (q : ℝ)
    macd_hist := (bfillAt (macdHistAt cl) n i).map fun q => (q : ℝ)
    bb_upper := bfillAt (bbUpperAt cl) n i
    bb_lower := bfillAt (bbLowerAt cl) n i }

/-- The signal generated and recorded for bar `i` of the replay: the
cascade applied to the (pre-computed, backfilled) feature row `i`. -/
noncomputable def sigAt (cl : List ℚ) (i : ℕ) : String :=
  generate_signal (latestAt cl i)

/-! ### Simulation driver (`run_backtest`) -/

/-- One OHLCV candle (a row of `historical_data`). -/
structure Candle where
  openTime : ℤ
  open_ : ℚ
  high : ℚ
  low : ℚ
  close : ℚ
  volume : ℚ
  deriving DecidableEq, Repr

instance : Inhabited Candle := ⟨⟨0, 0, 0, 0, 0, 0⟩⟩

/-- The body of the `for i in range(100, len(df))` loop: record the
signal for bar `i` (`signal_data`), then run `_execute_trade` on it.  The
bar's `price` is its close and its `timestamp` its `openTime` (the
backfill leaves the fully-defined `close` and `openTime` columns
unchanged). -/
noncomputable def processBar (P : Params) (data : List Candle) (i : ℕ)
    (s : EngineState) : EngineState :=
  let c := data.getD i default
  let sig := sigAt (data.map Candle.close) i
  let s' := { s with signals := s.signals ++
    [{ timestamp := c.openTime, symbol := P.symbol, signal := sig,
       price := c.close }] }
  execute_trade P c.openTime c.close sig s'

/-- The engine state after the reset at the top of `run_backtest`. -/
def initState (P : Params) : EngineState :=
  { trades := [], signals := [], balance := P.initialBalance,
    position := none, positionSize := 0 }

/-- The engine state after the first `n` iterations of the replay loop
(which processes bars `100, 101, ...`). -/
noncomputable def stateAt (P : Params) (data : List Candle) (n : ℕ) : EngineState :=
  (List.range n).foldl (fun s k => processBar P data (100 + k) s) (initState P)

/-- `required_columns` of `run_backtest`. -/
def requiredColumns : List String :=
  ["openTime", "open", "high", "low", "close", "volume"]

/-- The success payload of `run_backtest`. -/
structure BacktestResult where
  initialBalance : ℚ
  finalBalance : ℚ
  profitLoss : ℚ
  profitLossPct : ℚ
  trades : List TradeRec
  signals : List SignalRec

/-- `run_backtest`.  `cols` is the set of columns of the incoming frame
(`df.columns`); the data checks run before anything else, in the source's
order.  With `initial_balance = 0` the final `profit_loss_pct` division
raises `ZeroDivisionError`, which the blanket handler turns into an error
return — after the replay.  The historical-data provider
(`_get_historical_data`, a network call) is external: its result is the
`data` argument.  `_calculate_performance` only aggregates the ledger into
display metrics and is not modelled (no claim refers to its output); note
its drawdown division could itself raise in the degenerate case of a
balance curve whose running peak is exactly zero, which this model does
not represent. -/
noncomputable def run_backtest (P : Params) (cols : List String)
    (data : List Candle) : Except String BacktestResult :=
  if data.isEmpty ∨ data.length < 100 then
    .error "Insufficient historical data for backtesting"
  else if ¬ (requiredColumns.all fun c => cols.contains c) then
    .error "Historical data missing required columns"
  else if P.initialBalance = 0 then
    .error "Backtest failed: float division by zero"
  else
    let s := stateAt P data (data.length - 100)
    .ok { initialBalance := P.initialBalance
          finalBalance := s.balance
          profitLoss := s.balance - P.initialBalance
          profitLossPct := (s.balance / P.initialBalance - 1) * 100
          trades := s.trades
          signals := s.signals }

/-- Discriminator for the run result. -/
def isOkResult : Except String BacktestResult → Bool
  | .ok _ => true
  | .error _ => false

/-- Parameters that C7 says must be rejected: non-positive balance and a
risk fraction outside (0, 1]. -/
def Pbad : Params :=
  { symbol := "BTCUSDT", initialBalance := -100, riskPerTrade := 2,
    stopLossPct := 2/100, takeProfitPct := 4/100 }

/-! ### Ledger invariants maintained by the replay -/

instance : Inhabited TradeRec :=
  ⟨{ timestamp := 0, symbol := "", side := "", price := 0, quantity := 0,
     value := 0, pnl := none, pnl_pct := none, balance_before := 0,
     balance_after := 0, status := "", reason := none }⟩

/-- Strict alternation of the trade log, stated by index: every
even-indexed record is an OPEN BUY for the run's symbol with no pnl, and
every odd-indexed record is a CLOSED SELL whose symbol and quantity equal
those of the immediately preceding OPEN record. -/
def idxAlt (sym : String) (l : List TradeRec) : Prop :=
  ∀ k, k < l.length →
    (k % 2 = 0 →
      (l.getD k default).status = "OPEN" ∧ (l.getD k default).side = "BUY" ∧
      (l.getD k default).symbol = sym ∧ (l.getD k default).pnl = none) ∧
    (k % 2 = 1 →
      (l.getD k default).status = "CLOSED" ∧ (l.getD k default).side = "SELL" ∧
      (l.getD k default).symbol = (l.getD (k - 1) default).symbol ∧
      (l.getD k default).quantity = (l.getD (k - 1) default).quantity ∧
      (l.getD k default).pnl.isSome = true)

/-- The balance columns of the log chain up from `b`: each record starts
at the running balance and moves it by its booked pnl (zero for OPEN
records, which carry none). -/
def balChain (b : ℚ) : List TradeRec → Prop
  | [] => True
  | r :: rest =>
      r.balance_before = b ∧ r.balance_after = b + r.pnl.getD 0 ∧
      balChain r.balance_after rest

/-- Total booked pnl of a log. -/
def sumPnl (l : List TradeRec) : ℚ := (l.map fun r => r.pnl.getD 0).sum

/-- The invariant the replay maintains on the engine state. -/
def EngineInv (P : Params) (s : EngineState) : Prop :=
  idxAlt P.symbol s.trades ∧
  balChain P.initialBalance s.trades ∧
  s.balance = P.initialBalance + sumPnl s.trades ∧
  (match s.position with
   | none => s.trades.length % 2 = 0
   | some p =>
      s.trades.length % 2 = 1 ∧ p.entry_price ≠ 0 ∧
      (s.trades.getD (s.trades.length - 1) default).quantity = p.size ∧
      (s.trades.getD (s.trades.length - 1) default).symbol = P.symbol) ∧
  s.trades.countP (fun r => r.status == "OPEN") = (s.trades.length + 1) / 2 ∧
  s.trades.countP (fun r => r.status == "CLOSED") = s.trades.length / 2

/-! ### The look-ahead counterexample: a flat 101-bar prefix -/

/-- A history of 101 flat bars at price 100 followed by one bar at `x`. -/
def histCl (x : ℚ) : List ℚ := List.replicate 101 100 ++ [x]

/-! ### Basic shape of `execute_trade` on an open position -/

/-- With a position open, `_execute_trade` never takes the opening branch:
it runs the stop-loss check, then take-profit, then the SELL check. -/
theorem execute_trade_open (P : Params) (ts : ℤ) (price : ℚ) (sig : String)
    (s : EngineState) (p : Position) (hp : s.position = some p)
    (he : p.entry_price ≠ 0) :
    execute_trade P ts price sig s =
      if price ≤ p.stop_loss then closedState P ts price "STOP_LOSS" s p
      else if p.take_profit ≤ price then closedState P ts price "TAKE_PROFIT" s p
      else if sig = "SELL" then closedState P ts price "SIGNAL" s p
      else s := by
  rcases s with ⟨tr, sg, bal, pos, psz⟩
  simp only at hp
  subst hp
  unfold execute_trade
  have h1 : ¬ ((some p = (none : Option Position)) ∧ sig = "BUY") := by
    rintro ⟨h, -⟩; exact Option.noConfusion h
  rw [if_neg h1]
  simp only
  split_ifs <;> rfl

/-- With no position open and a non-BUY signal, nothing happens. -/
theorem execute_trade_flat_noop (P : Params) (ts : ℤ) (price : ℚ)
    (sig : String) (s : EngineState) (hp : s.position = none)
    (hs : sig ≠ "BUY") :
    execute_trade P ts price sig s = s := by
  unfold execute_trade
  rw [hp]
  have h1 : ¬ ((none = (none : Option Position)) ∧ sig = "BUY") := by
    rintro ⟨-, h⟩; exact hs h
  rw [if_neg h1]

/-- With no position open and a BUY signal at a nonzero price, the opening
branch runs. -/
theorem execute_trade_flat_buy (P : Params) (ts : ℤ) (price : ℚ)
    (s : EngineState) (hp : s.position = none) (hpr : price ≠ 0) :
    execute_trade P ts price "BUY" s =
      { s with
        position := some
          { entry_price := price
            size := s.balance * P.riskPerTrade / price
            stop_loss := price * (1 - P.stopLossPct)
            take_profit := price * (1 + P.takeProfitPct)
            entry_time := ts }
        positionSize := s.balance * P.riskPerTrade / price
        trades := s.trades ++ [openRecord P ts price s] } := by
  unfold execute_trade
  rw [hp, if_pos ⟨rfl, rfl⟩, if_neg hpr]

/-- With a position open, a BUY signal is processed exactly as a HOLD
signal: the branch opening a position requires `position is None`, and the
closing branches only test the signal against `"SELL"`. -/
theorem execute_trade_buy_eq_hold (P : Params) (ts : ℤ) (price : ℚ)
    (s : EngineState) (p : Position) (hp : s.position = some p) :
    execute_trade P ts price "BUY" s = execute_trade P ts price "HOLD" s := by
  rcases s with ⟨tr, sg, bal, pos, psz⟩
  simp only at hp
  subst hp
  unfold execute_trade
  have h1 : ¬ ((some p = (none : Option Position)) ∧ ("BUY" : String) = "BUY") := by
    rintro ⟨h, -⟩; exact Option.noConfusion h
  have h2 : ¬ ((some p = (none : Option Position)) ∧ ("HOLD" : String) = "BUY") := by
    rintro ⟨h, -⟩; exact Option.noConfusion h
  rw [if_neg h1, if_neg h2]
  simp only
  split_ifs <;> first | rfl | simp_all

set_option maxRecDepth 8000 in
unseal Rat.mul Rat.add Rat.sub Rat.inv Rat.ofScientific in
/-- C1, counterexample: on a bar whose price 90 is strictly below the stop
price 98, the source closes at the bar price 90, not at the stop price, and
books `pnl = (90 - 100) * 1 = -10`, not `(98 - 100) * 1 = -2`, so the
claimed `exit_price = stop_loss` fails. -/
theorem C1_counterexample :
    (90 : ℚ) ≤ pos0.stop_loss ∧
    (execute_trade P0 1 90 "HOLD" st0).trades.map
        (fun r => (r.price, r.pnl, r.reason)) =
      [((90 : ℚ), some (-10 : ℚ), some "STOP_LOSS")] ∧
    (90 : ℚ) ≠ pos0.stop_loss ∧
    (-10 : ℚ) ≠ (pos0.stop_loss - pos0.entry_price) * pos0.size := by
  decide

/-- C1 (amended): a bar at or below the stop closes the position at the
bar's close price with reason STOP_LOSS; a bar at or above the take-profit
(when the stop did not fire) closes at the bar's close price with reason
TAKE_PROFIT; in each case the booked pnl is `(bar price - entry) * size`
and the balance is incremented by it. -/
theorem C1_forced_close_at_bar_price (P : Params) (ts : ℤ) (price : ℚ)
    (sig : String) (s : EngineState) (p : Position)
    (hp : s.position = some p) (he : p.entry_price ≠ 0) :
    (price ≤ p.stop_loss →
      execute_trade P ts price sig s = closedState P ts price "STOP_LOSS" s p) ∧
    (¬ price ≤ p.stop_loss → p.take_profit ≤ price →
      execute_trade P ts price sig s = closedState P ts price "TAKE_PROFIT" s p) ∧
    (∀ reason, (closeRecord P ts price reason s p).price = price ∧
      (closeRecord P ts price reason s p).pnl =
        some ((price - p.entry_price) * p.size) ∧
      (closeRecord P ts price reason s p).reason = some reason ∧
      (closedState P ts price reason s p).balance =
        s.balance + (price - p.entry_price) * p.size ∧
      (closedState P ts price reason s p).trades =
        s.trades ++ [closeRecord P ts price reason s p] ∧
      (closedState P ts price reason s p).position = none) := by
  rw [execute_trade_open P ts price sig s p hp he]
  refine ⟨fun h => by rw [if_pos h], fun h h' => by rw [if_neg h, if_pos h'],
    fun reason => ⟨rfl, rfl, rfl, rfl, rfl, rfl⟩⟩

set_option maxRecDepth 8000 in
unseal Rat.mul Rat.add Rat.sub Rat.inv Rat.ofScientific in
/-- C1 witness: the stop-loss case of `C1_forced_close_at_bar_price` at the
concrete fixture (price 90, stop 98). -/
theorem C1_forced_close_witness :
    execute_trade P0 1 90 "HOLD" st0 = closedState P0 1 90 "STOP_LOSS" st0 pos0 :=
  (C1_forced_close_at_bar_price P0 1 90 "HOLD" st0 pos0 rfl (by decide)).1
    (by decide)

/-- C4: with a position open, the bar is processed by the fixed cascade
stop-loss first, then take-profit, then SELL-signal close; at most one
record is appended, any appended record is a CLOSED SELL (so no position is
opened on that bar, whatever the signal), and the resulting position is
either cleared or untouched. -/
theorem C4_close_priority_order (P : Params) (ts : ℤ) (price : ℚ)
    (sig : String) (s : EngineState) (p : Position)
    (hp : s.position = some p) (he : p.entry_price ≠ 0) :
    (execute_trade P ts price sig s =
      if price ≤ p.stop_loss then closedState P ts price "STOP_LOSS" s p
      else if p.take_profit ≤ price then closedState P ts price "TAKE_PROFIT" s p
      else if sig = "SELL" then closedState P ts price "SIGNAL" s p
      else s) ∧
    (execute_trade P ts price sig s).trades.length ≤ s.trades.length + 1 ∧
    (∀ r ∈ (execute_trade P ts price sig s).trades.drop s.trades.length,
      r.status = "CLOSED" ∧ r.side = "SELL") ∧
    ((execute_trade P ts price sig s).position = none ∨
      (execute_trade P ts price sig s).position = s.position) := by
  have h := execute_trade_open P ts price sig s p hp he
  refine ⟨h, ?_, ?_, ?_⟩ <;> rw [h] <;> split_ifs <;>
    simp [closedState, List.drop_left, List.drop_length, closeRecord]

set_option maxRecDepth 8000 in
unseal Rat.mul Rat.add Rat.sub Rat.inv Rat.ofScientific in
/-- C4 witness: the cascade theorem at the concrete fixture. -/
theorem C4_close_priority_witness :
    (execute_trade P0 1 90 "HOLD" st0).trades.length ≤ st0.trades.length + 1 :=
  (C4_close_priority_order P0 1 90 "HOLD" st0 pos0 rfl (by decide)).2.1

set_option maxRecDepth 8000 in
unseal Rat.mul Rat.add Rat.sub Rat.inv Rat.ofScientific in
/-- C3, counterexample: a BUY signal arriving while a position is open does
not leave the state unchanged — on a bar whose price hits the stop-loss the
position is force-closed and the balance changes, so "changes neither the
open position nor the balance" fails as stated. -/
theorem C3_counterexample :
    st0.position = some pos0 ∧
    (execute_trade P0 1 90 "BUY" st0).balance ≠ st0.balance ∧
    (execute_trade P0 1 90 "BUY" st0).position ≠ st0.position := by
  decide

/-- C5: FIFO matching.  For fills `[b1, b2, s1]` on one symbol with
`s1.size = b1.size`, the realised P&L is exactly
`(s1.price - b1.price) * b1.size` and `b2` remains unmatched in the queue;
and a SELL whose quantity covers all stored buys consumes both lots at
their full sizes and silently ignores the excess, leaving an empty queue
and no error. -/
theorem C5_fifo_matching (sym : String) (b1s b1p b2s b2p sp : ℚ)
    (t1 t2 t3 : ℤ) (hb1 : 0 < b1s) (hb2 : 0 < b2s) :
    ((calculate_realised_pnl
        [{ symbol := sym, side := "BUY", size := b1s, price := b1p, ts := t1 },
         { symbol := sym, side := "BUY", size := b2s, price := b2p, ts := t2 },
         { symbol := sym, side := "SELL", size := b1s, price := sp, ts := t3 }]).realised
        (pyUpper sym) = (sp - b1p) * b1s ∧
      (calculate_realised_pnl
        [{ symbol := sym, side := "BUY", size := b1s, price := b1p, ts := t1 },
         { symbol := sym, side := "BUY", size := b2s, price := b2p, ts := t2 },
         { symbol := sym, side := "SELL", size := b1s, price := sp, ts := t3 }]).positions
        (pyUpper sym) = [{ size := b2s, price := b2p, ts := t2 }]) ∧
    (∀ q : ℚ, b1s + b2s ≤ q →
      (calculate_realised_pnl
        [{ symbol := sym, side := "BUY", size := b1s, price := b1p, ts := t1 },
         { symbol := sym, side := "BUY", size := b2s, price := b2p, ts := t2 },
         { symbol := sym, side := "SELL", size := q, price := sp, ts := t3 }]).realised
        (pyUpper sym) = (sp - b1p) * b1s + (sp - b2p) * b2s ∧
      (calculate_realised_pnl
        [{ symbol := sym, side := "BUY", size := b1s, price := b1p, ts := t1 },
         { symbol := sym, side := "BUY", size := b2s, price := b2p, ts := t2 },
         { symbol := sym, side := "SELL", size := q, price := sp, ts := t3 }]).positions
        (pyUpper sym) = []) := by
  have hB : pyUpper "BUY" = "BUY" := rfl
  have hS : pyUpper "SELL" = "SELL" := rfl
  constructor
  · have hmatch : matchSell sp t3 b1s
        [{ size := b1s, price := b1p, ts := t1 }, { size := b2s, price := b2p, ts := t2 }] =
        ((sp - b1p) * b1s, [{ size := b2s, price := b2p, ts := t2 }], [t3 - t1]) := by
      rw [matchSell, if_pos hb1]
      simp only [min_self, sub_self, le_refl, if_pos]
      rw [matchSell, if_neg (lt_irrefl 0)]
      simp
    simp [calculate_realised_pnl, pnlStep, updMap, hB, hS, hmatch]
  · intro q hq
    have hq1 : b1s ≤ q := le_trans (le_add_of_nonneg_right hb2.le) hq
    have hq2 : b2s ≤ q - b1s := by linarith
    have hq0 : 0 < q := lt_of_lt_of_le (by linarith) hq
    have hq0' : 0 < q - b1s := lt_of_lt_of_le hb2 hq2
    have hmatch : matchSell sp t3 q
        [{ size := b1s, price := b1p, ts := t1 }, { size := b2s, price := b2p, ts := t2 }] =
        ((sp - b1p) * b1s + (sp - b2p) * b2s, [], [t3 - t1, t3 - t2]) := by
      rw [matchSell, if_pos hq0]
      simp only [min_eq_right hq1, sub_self, le_refl, if_pos]
      rw [matchSell, if_pos hq0']
      simp only [min_eq_right hq2, sub_self, le_refl, if_pos]
      rw [matchSell]
      simp [add_assoc]
    simp [calculate_realised_pnl, pnlStep, updMap, hB, hS, hmatch]

set_option maxRecDepth 8000 in
unseal Rat.mul Rat.add Rat.sub Rat.inv Rat.ofScientific in
/-- C5 witness: the FIFO theorem at buys of sizes 1 and 2 at prices 10 and
20 and a sell of size 1 at price 30: realised pnl `(30 - 10) * 1 = 20`. -/
theorem C5_fifo_matching_witness :
    (calculate_realised_pnl
        [{ symbol := "BTCUSDT", side := "BUY", size := 1, price := 10, ts := 0 },
         { symbol := "BTCUSDT", side := "BUY", size := 2, price := 20, ts := 1 },
         { symbol := "BTCUSDT", side := "SELL", size := 1, price := 30, ts := 2 }]).realised
      (pyUpper "BTCUSDT") = (30 - 10) * 1 ∧
    (calculate_realised_pnl
        [{ symbol := "BTCUSDT", side := "BUY", size := 1, price := 10, ts := 0 },
         { symbol := "BTCUSDT", side := "BUY", size := 2, price := 20, ts := 1 },
         { symbol := "BTCUSDT", side := "SELL", size := 1, price := 30, ts := 2 }]).positions
      (pyUpper "BTCUSDT") = [{ size := 2, price := 20, ts := 1 }] :=
  (C5_fifo_matching "BTCUSDT" 1 10 2 20 30 0 1 2 (by decide) (by decide)).1

theorem step_rsi {R : Type} [LinearOrderedField R] (l : Latest R) (prev : String) :
    (if oLt l.rsi (some 30) then "BUY"
     else if oLt (some 70) l.rsi then "SELL"
     else prev) = (ruleRSI l).getD prev := by
  obtain ⟨rsi, s20, s50, c, m, ms, mh, bu, bl⟩ := l
  cases rsi with
  | none => simp [oLt, ruleRSI]
  | some r =>
      simp only [oLt, ruleRSI, decide_eq_true_eq]
      split_ifs <;> simp

theorem step_sma {R : Type} [LinearOrderedField R] (l : Latest R) (prev : String) :
    (if oLt l.sma_50 l.sma_20 && oLt l.sma_20 l.close then "BUY"
     else if oLt l.sma_20 l.sma_50 && oLt l.close l.sma_20 then "SELL"
     else prev) = (ruleSMA l).getD prev := by
  obtain ⟨rsi, s20, s50, c, m, ms, mh, bu, bl⟩ := l
  cases s20 <;> cases s50 <;> cases c <;>
    simp only [oLt, ruleSMA, Bool.and_eq_true, decide_eq_true_eq] <;>
    split_ifs <;> simp_all

theorem step_macd {R : Type} [LinearOrderedField R] (l : Latest R) (prev : String) :
    (if oLt l.macd_signal l.macd && oLt (some 0) l.macd_hist then "BUY"
     else if oLt l.macd l.macd_signal && oLt l.macd_hist (some 0) then "SELL"
     else prev) = (ruleMACD l).getD prev := by
  obtain ⟨rsi, s20, s50, c, m, ms, mh, bu, bl⟩ := l
  cases m <;> cases ms <;> cases mh <;>
    simp only [oLt, ruleMACD, Bool.and_eq_true, decide_eq_true_eq] <;>
    split_ifs <;> simp_all

theorem step_bb {R : Type} [LinearOrderedField R] (l : Latest R) (prev : String) :
    (if oLt l.close l.bb_lower then "BUY"
     else if oLt l.bb_upper l.close then "SELL"
     else prev) = (ruleBB l).getD prev := by
  obtain ⟨rsi, s20, s50, c, m, ms, mh, bu, bl⟩ := l
  cases c <;> cases bu <;> cases bl <;>
    simp only [oLt, ruleBB, decide_eq_true_eq] <;>
    split_ifs <;> simp_all

theorem getD_chain (a b c d : Option String) (x : String) :
    ((([a, b, c, d]).filterMap id).getLast?).getD x =
      d.getD (c.getD (b.getD (a.getD x))) := by
  cases a <;> cases b <;> cases c <;> cases d <;> rfl

theorem ruleRSI_range {R : Type} [LinearOrderedField R] (l : Latest R) :
    ruleRSI l = some "BUY" ∨ ruleRSI l = some "SELL" ∨ ruleRSI l = none := by
  obtain ⟨rsi, s20, s50, c, m, ms, mh, bu, bl⟩ := l
  cases rsi <;> simp only [ruleRSI] <;> first | (split_ifs <;> simp) | simp

theorem ruleSMA_range {R : Type} [LinearOrderedField R] (l : Latest R) :
    ruleSMA l = some "BUY" ∨ ruleSMA l = some "SELL" ∨ ruleSMA l = none := by
  obtain ⟨rsi, s20, s50, c, m, ms, mh, bu, bl⟩ := l
  cases s20 <;> cases s50 <;> cases c <;> simp only [ruleSMA] <;>
    first | (split_ifs <;> simp) | simp

theorem ruleMACD_range {R : Type} [LinearOrderedField R] (l : Latest R) :
    ruleMACD l = some "BUY" ∨ ruleMACD l = some "SELL" ∨ ruleMACD l = none := by
  obtain ⟨rsi, s20, s50, c, m, ms, mh, bu, bl⟩ := l
  cases m <;> cases ms <;> cases mh <;> simp only [ruleMACD] <;>
    first | (split_ifs <;> simp) | simp

theorem ruleBB_range {R : Type} [LinearOrderedField R] (l : Latest R) :
    ruleBB l = some "BUY" ∨ ruleBB l = some "SELL" ∨ ruleBB l = none := by
  obtain ⟨rsi, s20, s50, c, m, ms, mh, bu, bl⟩ := l
  cases c <;> cases bu <;> cases bl <;> simp only [ruleBB] <;>
    first | (split_ifs <;> simp) | simp

theorem getD_mem (o : Option String) (prev : String)
    (ho : o = some "BUY" ∨ o = some "SELL" ∨ o = none)
    (hp : prev = "BUY" ∨ prev = "SELL" ∨ prev = "HOLD") :
    o.getD prev = "BUY" ∨ o.getD prev = "SELL" ∨ o.getD prev = "HOLD" := by
  rcases ho with h | h | h <;> subst h <;> simpa using hp

/-- C9: the signal generator is exactly the spec's four-rule cascade with
"last matching rule wins" — it equals the fold that lets the last firing
rule of `[RSI, SMA cross, MACD, Bollinger]` overwrite the earlier ones,
with HOLD when no rule fires (a rule whose inputs are undefined does not
fire) — and its output is always exactly one of BUY, SELL, HOLD.  Being a
pure function of `Latest`, it is deterministic on identical inputs. -/
theorem C9_rule_cascade {R : Type} [LinearOrderedField R] (l : Latest R) :
    generate_signal l = lastMatchingRule l ∧
    (generate_signal l = "BUY" ∨ generate_signal l = "SELL" ∨
      generate_signal l = "HOLD") := by
  have h : generate_signal l =
      (ruleBB l).getD ((ruleMACD l).getD ((ruleSMA l).getD ((ruleRSI l).getD "HOLD"))) := by
    simp only [generate_signal]
    rw [step_rsi, step_sma, step_macd, step_bb]
  constructor
  · rw [h, lastMatchingRule, getD_chain]
  · rw [h]
    exact getD_mem _ _ (ruleBB_range l)
      (getD_mem _ _ (ruleMACD_range l)
        (getD_mem _ _ (ruleSMA_range l)
          (getD_mem _ _ (ruleRSI_range l) (Or.inr (Or.inr rfl)))))

set_option maxRecDepth 40000 in
unseal Rat.mul Rat.add Rat.sub Rat.inv Rat.ofScientific in
/-- C8, counterexample: on 15 flat candles the 14-period average loss at
row 14 is zero, but so is the average gain, and `rs = 0 / 0` is `NaN`, so
the raw RSI of that row is `NaN` (later backfilled), not 100. -/
theorem C8_counterexample :
    avgLossAt (List.replicate 15 (100 : ℚ)) 14 = some 0 ∧
    avgGainAt (List.replicate 15 (100 : ℚ)) 14 = some 0 ∧
    rsiRawAt (List.replicate 15 (100 : ℚ)) 14 = none := by
  decide

/-- C8 (amended): whenever the 14-period average loss at a bar is zero and
the 14-period average gain there is nonzero, the RSI computed for that bar
is exactly 100 (the division maps to the `+inf` branch, not `NaN`); when
both averages are zero the RSI is `NaN` instead. -/
theorem C8_rsi_zero_loss (cl : List ℚ) (i : ℕ) (g : ℚ)
    (hl : avgLossAt cl i = some 0) (hg : avgGainAt cl i = some g)
    (hgne : g ≠ 0) :
    rsiRawAt cl i = some 100 := by
  simp [rsiRawAt, hl, hg, hgne]

set_option maxRecDepth 40000 in
unseal Rat.mul Rat.add Rat.sub Rat.inv Rat.ofScientific in
/-- C8 witness: a strictly rising 15-candle history has average loss 0 and
average gain 1 at row 14, so its RSI there is 100. -/
theorem C8_rsi_zero_loss_witness :
    rsiRawAt ((List.range 15).map fun k => (k : ℚ)) 14 = some 100 :=
  C8_rsi_zero_loss _ 14 1 (by decide) (by decide) (by decide)

/-- C6: with fewer than 100 candles, or a required OHLCV column missing,
`run_backtest` returns the corresponding data error before the replay
starts — the returned value carries no trades, no signals and no report,
and the short-data check fires first. -/
theorem C6_insufficient_data (P : Params) (cols : List String)
    (data : List Candle)
    (h : data.length < 100 ∨ ¬ (requiredColumns.all fun c => cols.contains c)) :
    (run_backtest P cols data =
        .error "Insufficient historical data for backtesting" ∨
      run_backtest P cols data =
        .error "Historical data missing required columns") ∧
    (data.length < 100 → run_backtest P cols data =
        .error "Insufficient historical data for backtesting") := by
  by_cases hlen : data.length < 100
  · rw [run_backtest, if_pos (Or.inr hlen)]
    exact ⟨Or.inl rfl, fun _ => rfl⟩
  · have hne : ¬ (data.isEmpty = true ∨ data.length < 100) := by
      rintro (he | hl)
      · rw [List.isEmpty_iff] at he
        exact hlen (by simp [he])
      · exact hlen hl
    rcases h with hl | hc
    · exact absurd hl hlen
    · rw [run_backtest, if_neg hne, if_pos hc]
      exact ⟨Or.inr rfl, fun hl => absurd hl hlen⟩

/-- C6 witness: the empty history is rejected with the insufficient-data
error. -/
theorem C6_insufficient_data_witness :
    run_backtest P0 requiredColumns [] =
      .error "Insufficient historical data for backtesting" :=
  (C6_insufficient_data P0 requiredColumns [] (Or.inl (by decide))).2 (by decide)

set_option maxRecDepth 8000 in
unseal Rat.mul Rat.add Rat.sub Rat.inv Rat.ofScientific in
/-- C7, counterexample: a run with `initial_balance = -100` and
`risk_per_trade = 2` — both outside the claimed valid ranges — is not
rejected: on a 100-candle history `run_backtest` returns a success report,
so no invalid-parameter error exists. -/
theorem C7_counterexample :
    (Pbad.initialBalance ≤ 0 ∧ ¬ (0 < Pbad.riskPerTrade ∧ Pbad.riskPerTrade ≤ 1)) ∧
    isOkResult (run_backtest Pbad requiredColumns (List.replicate 100 default)) = true := by
  constructor
  · decide
  · rfl

/-- C7 (amended): `run_backtest` performs no parameter validation at all —
with enough data and the required columns present, every parameter set
with a nonzero initial balance (any sign, any risk fraction) runs to a
success report; the only balance-related failure is the
`ZeroDivisionError` raised after the replay when `initial_balance = 0`. -/
theorem C7_no_parameter_validation (P : Params) (cols : List String)
    (data : List Candle) (hlen : 100 ≤ data.length)
    (hcols : (requiredColumns.all fun c => cols.contains c) = true) :
    (P.initialBalance ≠ 0 → isOkResult (run_backtest P cols data) = true) ∧
    (P.initialBalance = 0 → run_backtest P cols data =
        .error "Backtest failed: float division by zero") := by
  have hne : ¬ (data.isEmpty = true ∨ data.length < 100) := by
    rintro (he | hl)
    · rw [List.isEmpty_iff] at he
      simp [he] at hlen
    · omega
  rw [run_backtest, if_neg hne, if_neg (not_not_intro hcols)]
  constructor
  · intro hb
    rw [if_neg hb]
    rfl
  · intro hb
    rw [if_pos hb]

set_option maxRecDepth 8000 in
unseal Rat.mul Rat.add Rat.sub Rat.inv Rat.ofScientific in
/-- C7 witness: the no-validation theorem applied to the out-of-range
parameter set `Pbad` on a 100-candle history. -/
theorem C7_no_parameter_validation_witness :
    isOkResult (run_backtest Pbad requiredColumns (List.replicate 100 default)) = true :=
  (C7_no_parameter_validation Pbad requiredColumns (List.replicate 100 default)
    (by decide) (by decide)).1 (by decide)

theorem getD_append_lt (l : List TradeRec) (r : TradeRec) (k : ℕ)
    (h : k < l.length) : (l ++ [r]).getD k default = l.getD k default := by
  rw [List.getD, List.getD, List.get?_append h]

theorem getD_append_last (l : List TradeRec) (r : TradeRec) :
    (l ++ [r]).getD l.length default = r := by
  rw [List.getD, List.get?_append_right (le_refl _)]
  simp

theorem sumPnl_append (l : List TradeRec) (r : TradeRec) :
    sumPnl (l ++ [r]) = sumPnl l + r.pnl.getD 0 := by
  simp [sumPnl]

theorem balChain_append (b : ℚ) (l : List TradeRec) (r : TradeRec)
    (hc : balChain b l) (hb : r.balance_before = b + sumPnl l)
    (ha : r.balance_after = r.balance_before + r.pnl.getD 0) :
    balChain b (l ++ [r]) := by
  induction l generalizing b with
  | nil =>
      simp only [List.nil_append, balChain]
      refine ⟨by simpa [sumPnl] using hb, ?_, trivial⟩
      rw [ha, hb]
      simp [sumPnl]
  | cons x xs ih =>
      obtain ⟨h1, h2, h3⟩ := hc
      refine ⟨h1, h2, ih _ h3 ?_⟩
      rw [hb, h2]
      simp [sumPnl]
      ring

theorem balChain_delta (b : ℚ) (l : List TradeRec) (hc : balChain b l) :
    ∀ r ∈ l, r.balance_after - r.balance_before = r.pnl.getD 0 := by
  induction l generalizing b with
  | nil => intro r hr; cases hr
  | cons x xs ih =>
      obtain ⟨h1, h2, h3⟩ := hc
      intro r hr
      rcases List.mem_cons.1 hr with rfl | hr
      · rw [h2, h1]; ring
      · exact ih _ h3 r hr

theorem idxAlt_append_open (sym : String) (l : List TradeRec) (r : TradeRec)
    (hl : idxAlt sym l) (hev : l.length % 2 = 0)
    (hr : r.status = "OPEN" ∧ r.side = "BUY" ∧ r.symbol = sym ∧ r.pnl = none) :
    idxAlt sym (l ++ [r]) := by
  intro k hk
  rw [List.length_append, List.length_singleton] at hk
  rcases Nat.lt_succ_iff_lt_or_eq.1 hk with hk' | rfl
  · have e1 := getD_append_lt l r k hk'
    constructor
    · intro hpar
      rw [e1]
      exact (hl k hk').1 hpar
    · intro hpar
      have hk1 : k - 1 < l.length := lt_of_le_of_lt (Nat.sub_le k 1) hk'
      rw [e1, getD_append_lt l r _ hk1]
      exact (hl k hk').2 hpar
  · constructor
    · intro _
      rw [getD_append_last]
      exact ⟨hr.1, hr.2.1, hr.2.2.1, hr.2.2.2⟩
    · intro hpar
      omega

theorem idxAlt_append_close (sym : String) (l : List TradeRec) (r : TradeRec)
    (hl : idxAlt sym l) (hodd : l.length % 2 = 1)
    (hr : r.status = "CLOSED" ∧ r.side = "SELL" ∧
      r.symbol = (l.getD (l.length - 1) default).symbol ∧
      r.quantity = (l.getD (l.length - 1) default).quantity ∧
      r.pnl.isSome = true) :
    idxAlt sym (l ++ [r]) := by
  intro k hk
  rw [List.length_append, List.length_singleton] at hk
  rcases Nat.lt_succ_iff_lt_or_eq.1 hk with hk' | rfl
  · have e1 := getD_append_lt l r k hk'
    constructor
    · intro hpar
      rw [e1]
      exact (hl k hk').1 hpar
    · intro hpar
      have hk1 : k - 1 < l.length := lt_of_le_of_lt (Nat.sub_le k 1) hk'
      rw [e1, getD_append_lt l r _ hk1]
      exact (hl k hk').2 hpar
  · constructor
    · intro hpar
      omega
    · intro _
      have h1 : l.length - 1 < l.length := by omega
      rw [getD_append_last, getD_append_lt l r _ h1]
      exact hr

theorem closedState_inv (P : Params) (ts : ℤ) (price : ℚ) (reason : String)
    (s : EngineState) (p : Position) (hInv : EngineInv P s)
    (hp : s.position = some p) :
    EngineInv P (closedState P ts price reason s p) := by
  obtain ⟨hAlt, hChain, hBal, hPos, hCntO, hCntC⟩ := hInv
  rw [hp] at hPos
  obtain ⟨hodd, hen, hqty, hsym⟩ := hPos
  have hlen : (closedState P ts price reason s p).trades =
      s.trades ++ [closeRecord P ts price reason s p] := rfl
  refine ⟨?_, ?_, ?_, ?_, ?_, ?_⟩
  · rw [hlen]
    refine idxAlt_append_close P.symbol _ _ hAlt hodd ⟨rfl, rfl, ?_, ?_, rfl⟩
    · exact hsym.symm
    · exact hqty.symm
  · rw [hlen]
    refine balChain_append _ _ _ hChain ?_ ?_
    · show (s.balance + _) - _ = _
      rw [add_sub_cancel_right, hBal]
    · show s.balance + _ = (s.balance + _) - _ + _
      rw [add_sub_cancel_right]
      rfl
  · show s.balance + (price - p.entry_price) * p.size = _
    rw [hlen, sumPnl_append, hBal]
    show _ = P.initialBalance + (sumPnl s.trades +
      ((closeRecord P ts price reason s p).pnl).getD 0)
    rw [show ((closeRecord P ts price reason s p).pnl).getD 0 =
      (price - p.entry_price) * p.size from rfl]
    ring
  · show (s.trades ++ [closeRecord P ts price reason s p]).length % 2 = 0
    rw [List.length_append, List.length_singleton]
    omega
  · rw [hlen, List.countP_append, hCntO, List.length_append,
      List.length_singleton]
    have : List.countP (fun r => r.status == "OPEN")
        [closeRecord P ts price reason s p] = 0 := rfl
    rw [this]
    omega
  · rw [hlen, List.countP_append, hCntC, List.length_append,
      List.length_singleton]
    have : List.countP (fun r => r.status == "CLOSED")
        [closeRecord P ts price reason s p] = 1 := rfl
    rw [this]
    omega

theorem execute_trade_inv (P : Params) (ts : ℤ) (price : ℚ) (sig : String)
    (s : EngineState) (hInv : EngineInv P s) :
    EngineInv P (execute_trade P ts price sig s) := by
  cases hp : s.position with
  | some p =>
      have hen : p.entry_price ≠ 0 := by
        have := hInv.2.2.2.1
        rw [hp] at this
        exact this.2.1
      rw [execute_trade_open P ts price sig s p hp hen]
      split_ifs
      · exact closedState_inv P ts price "STOP_LOSS" s p hInv hp
      · exact closedState_inv P ts price "TAKE_PROFIT" s p hInv hp
      · exact closedState_inv P ts price "SIGNAL" s p hInv hp
      · exact hInv
  | none =>
      obtain ⟨hAlt, hChain, hBal, hPos, hCntO, hCntC⟩ := hInv
      rw [hp] at hPos
      by_cases hsig : sig = "BUY"
      · subst hsig
        by_cases hpr : price = 0
        · have : execute_trade P ts price "BUY" s = s := by
            unfold execute_trade
            rw [if_pos ⟨hp, rfl⟩, if_pos hpr]
          rw [this]
          exact ⟨hAlt, hChain, hBal, by rw [hp]; exact hPos, hCntO, hCntC⟩
        · rw [execute_trade_flat_buy P ts price s hp hpr]
          have hlen : ({ s with
              position := some
                { entry_price := price,
                  size := s.balance * P.riskPerTrade / price,
                  stop_loss := price * (1 - P.stopLossPct),
                  take_profit := price * (1 + P.takeProfitPct),
                  entry_time := ts },
              positionSize := s.balance * P.riskPerTrade / price,
              trades := s.trades ++ [openRecord P ts price s] } :
            EngineState).trades = s.trades ++ [openRecord P ts price s] := rfl
          refine ⟨?_, ?_, ?_, ?_, ?_, ?_⟩
          · rw [hlen]
            exact idxAlt_append_open P.symbol _ _ hAlt hPos ⟨rfl, rfl, rfl, rfl⟩
          · rw [hlen]
            refine balChain_append _ _ _ hChain ?_ ?_
            · show s.balance = _
              exact hBal
            · show s.balance = s.balance + ((openRecord P ts price s).pnl).getD 0
              rw [show ((openRecord P ts price s).pnl).getD 0 = 0 from rfl,
                add_zero]
          · show s.balance = _
            rw [hlen, sumPnl_append,
              show ((openRecord P ts price s).pnl).getD 0 = 0 from rfl,
              add_zero, hBal]
          · show (s.trades ++ [openRecord P ts price s]).length % 2 = 1 ∧ _
            rw [List.length_append, List.length_singleton]
            refine ⟨by omega, hpr, ?_, ?_⟩
            · rw [hlen, Nat.add_sub_cancel, getD_append_last]
              rfl
            · rw [hlen, Nat.add_sub_cancel, getD_append_last]
              rfl
          · rw [hlen, List.countP_append, hCntO, List.length_append,
              List.length_singleton]
            have : List.countP (fun r => r.status == "OPEN")
                [openRecord P ts price s] = 1 := rfl
            rw [this]
            omega
          · rw [hlen, List.countP_append, hCntC, List.length_append,
              List.length_singleton]
            have : List.countP (fun r => r.status == "CLOSED")
                [openRecord P ts price s] = 0 := rfl
            rw [this]
            omega
      · rw [execute_trade_flat_noop P ts price sig s hp hsig]
        exact ⟨hAlt, hChain, hBal, by rw [hp]; exact hPos, hCntO, hCntC⟩

theorem initState_inv (P : Params) : EngineInv P (initState P) := by
  refine ⟨?_, trivial, ?_, rfl, by simp [initState], by simp [initState]⟩
  · intro k hk
    exact absurd hk (Nat.not_lt_zero k)
  · show P.initialBalance = P.initialBalance + sumPnl []
    rw [show sumPnl [] = 0 from rfl, add_zero]

theorem processBar_inv (P : Params) (data : List Candle) (i : ℕ)
    (s : EngineState) (hInv : EngineInv P s) :
    EngineInv P (processBar P data i s) := by
  apply execute_trade_inv
  exact hInv

theorem stateAt_inv (P : Params) (data : List Candle) (n : ℕ) :
    EngineInv P (stateAt P data n) := by
  induction n with
  | zero => exact initState_inv P
  | succ n ih =>
      have h : stateAt P data (n + 1) =
          processBar P data (100 + n) (stateAt P data n) := by
        unfold stateAt
        rw [List.range_succ, List.foldl_append]
        rfl
      rw [h]
      exact processBar_inv P data (100 + n) _ ih

/-- C10: in every run's trade log the records strictly alternate — each
even-indexed record is an OPEN BUY for the run's symbol with no pnl, each
odd-indexed record a CLOSED SELL whose symbol and quantity equal those of
the immediately preceding OPEN record — every record moves the balance by
exactly its booked pnl (zero for OPEN records), the balance columns chain
as the cumulative pnl sum over the initial balance, and the final balance
is the initial balance plus the total booked pnl; the run's returned log
is exactly this replay log. -/
theorem C10_trade_log_shape (P : Params) (cols : List String)
    (data : List Candle) :
    idxAlt P.symbol (stateAt P data (data.length - 100)).trades ∧
    (∀ r ∈ (stateAt P data (data.length - 100)).trades,
      r.balance_after - r.balance_before = r.pnl.getD 0) ∧
    balChain P.initialBalance (stateAt P data (data.length - 100)).trades ∧
    (stateAt P data (data.length - 100)).balance =
      P.initialBalance + sumPnl (stateAt P data (data.length - 100)).trades ∧
    (∀ res, run_backtest P cols data = Except.ok res →
      res.trades = (stateAt P data (data.length - 100)).trades ∧
      res.finalBalance = (stateAt P data (data.length - 100)).balance) := by
  obtain ⟨h1, h2, h3, h4, h5, h6⟩ := stateAt_inv P data (data.length - 100)
  refine ⟨h1, balChain_delta _ _ h2, h2, h3, ?_⟩
  intro res hres
  unfold run_backtest at hres
  split_ifs at hres
  all_goals simp only [Except.ok.injEq] at hres
  subst hres
  exact ⟨rfl, rfl⟩

/-- C3 (amended): along the whole replay at most one position is open at
any bar index — the ledger never holds more OPEN records than CLOSED
records plus one, and the engine's position slot is a single option — and
a BUY signal arriving while a position is open is ignored: the bar is
processed exactly as if the signal were HOLD (so no new position is
opened; the stop-loss/take-profit checks may still close the position and
change the balance). -/
theorem C3_at_most_one_position (P : Params) (data : List Candle) (n : ℕ) :
    (stateAt P data n).trades.countP (fun r => r.status == "OPEN") ≤
      (stateAt P data n).trades.countP (fun r => r.status == "CLOSED") + 1 ∧
    (∀ (s : EngineState) (p : Position) (ts : ℤ) (price : ℚ),
      s.position = some p →
      execute_trade P ts price "BUY" s = execute_trade P ts price "HOLD" s) := by
  obtain ⟨-, -, -, -, h5, h6⟩ := stateAt_inv P data n
  constructor
  · rw [h5, h6]
    omega
  · intro s p ts price hp
    exact execute_trade_buy_eq_hold P ts price s p hp

/-! ### Prefix determination of the features (for the look-ahead claim) -/

theorem get?_eq_of_take_eq (clA clB : List ℚ) (i : ℕ)
    (h : clA.take (i + 1) = clB.take (i + 1)) :
    ∀ j, j ≤ i → clA.get? j = clB.get? j := by
  intro j hj
  have h1 : (clA.take (i + 1)).get? j = clA.get? j := List.get?_take (by omega)
  have h2 : (clB.take (i + 1)).get? j = clB.get? j := List.get?_take (by omega)
  rw [← h1, ← h2, h]

theorem diffAt_congr (clA clB : List ℚ) (i : ℕ)
    (hj : ∀ j, j ≤ i → clA.get? j = clB.get? j) (j : ℕ) (hji : j ≤ i) :
    diffAt clA j = diffAt clB j := by
  unfold diffAt
  rw [hj j hji, hj (j - 1) (le_trans (Nat.sub_le j 1) hji)]

theorem gainAt_congr (clA clB : List ℚ) (i : ℕ)
    (hlA : i < clA.length) (hlB : i < clB.length)
    (hj : ∀ j, j ≤ i → clA.get? j = clB.get? j) (j : ℕ) (hji : j ≤ i) :
    gainAt clA j = gainAt clB j := by
  unfold gainAt
  rw [if_pos (lt_of_le_of_lt hji hlA), if_pos (lt_of_le_of_lt hji hlB),
    diffAt_congr clA clB i hj j hji]

theorem lossAt_congr (clA clB : List ℚ) (i : ℕ)
    (hlA : i < clA.length) (hlB : i < clB.length)
    (hj : ∀ j, j ≤ i → clA.get? j = clB.get? j) (j : ℕ) (hji : j ≤ i) :
    lossAt clA j = lossAt clB j := by
  unfold lossAt
  rw [if_pos (lt_of_le_of_lt hji hlA), if_pos (lt_of_le_of_lt hji hlB),
    diffAt_congr clA clB i hj j hji]

theorem seqOption_congr {β : Type} (l : List ℕ) (f g : ℕ → Option β)
    (h : ∀ a ∈ l, f a = g a) :
    seqOption (l.map f) = seqOption (l.map g) := by
  induction l with
  | nil => rfl
  | cons a as ih =>
      rw [List.map_cons, List.map_cons, h a (List.mem_cons_self a as)]
      cases hga : g a with
      | none => rfl
      | some x =>
          show (match seqOption (as.map f) with
            | some xs => some (x :: xs)
            | none => none) = (match seqOption (as.map g) with
            | some xs => some (x :: xs)
            | none => none)
          rw [ih fun b hb => h b (List.mem_cons_of_mem a hb)]

theorem rollingMeanAt_congr (f g : ℕ → Option ℚ) (w i : ℕ)
    (hfg : ∀ j, j ≤ i → f j = g j) :
    rollingMeanAt f w i = rollingMeanAt g w i := by
  unfold rollingMeanAt
  rw [seqOption_congr (List.range w) _ _
    fun a _ => hfg (i - a) (Nat.sub_le i a)]

theorem ewmAt_congr (f g : ℕ → Option ℚ) (a : ℚ) (i : ℕ)
    (hfg : ∀ j, j ≤ i → f j = g j) : ewmAt f a i = ewmAt g a i := by
  induction i with
  | zero => exact hfg 0 (le_refl 0)
  | succ n ih =>
      show (match ewmAt f a n, f (n + 1) with
        | some prev, some c => some ((1 - a) * prev + a * c)
        | _, _ => none) = (match ewmAt g a n, g (n + 1) with
        | some prev, some c => some ((1 - a) * prev + a * c)
        | _, _ => none)
      rw [ih fun j hj => hfg j (Nat.le_succ_of_le hj),
        hfg (n + 1) (le_refl _)]

theorem seqOption_isSome {β : Type} (l : List ℕ) (f : ℕ → Option β)
    (h : ∀ a ∈ l, (f a).isSome = true) :
    (seqOption (l.map f)).isSome = true := by
  induction l with
  | nil => rfl
  | cons a as ih =>
      rw [List.map_cons]
      obtain ⟨x, hx⟩ := Option.isSome_iff_exists.1
        (h a (List.mem_cons_self a as))
      obtain ⟨xs, hxs⟩ := Option.isSome_iff_exists.1
        (ih fun b hb => h b (List.mem_cons_of_mem a hb))
      rw [hx, show seqOption (some x :: as.map f) =
        (match seqOption (as.map f) with
          | some xs => some (x :: xs)
          | none => none) from rfl, hxs]
      rfl

theorem closeAt_isSome (cl : List ℚ) (j : ℕ) (hj : j < cl.length) :
    (closeAt cl j).isSome = true := by
  rw [closeAt, List.get?_eq_get hj]
  rfl

theorem rollingMean_isSome (f : ℕ → Option ℚ) (w i : ℕ) (hw : w ≤ i + 1)
    (h : ∀ k, k < w → (f (i - k)).isSome = true) :
    (rollingMeanAt f w i).isSome = true := by
  unfold rollingMeanAt
  rw [if_neg (by omega)]
  obtain ⟨xs, hxs⟩ := Option.isSome_iff_exists.1
    (seqOption_isSome (List.range w) _ fun a ha => h a (List.mem_range.1 ha))
  rw [hxs]
  rfl

theorem ewm_isSome (f : ℕ → Option ℚ) (a : ℚ) (i : ℕ)
    (h : ∀ j, j ≤ i → (f j).isSome = true) :
    (ewmAt f a i).isSome = true := by
  induction i with
  | zero => exact h 0 (le_refl 0)
  | succ n ih =>
      have h1 := ih fun j hj => h j (Nat.le_succ_of_le hj)
      obtain ⟨x, hx⟩ := Option.isSome_iff_exists.1 h1
      obtain ⟨y, hy⟩ := Option.isSome_iff_exists.1 (h (n + 1) (le_refl _))
      show (match ewmAt f a n, f (n + 1) with
        | some prev, some c => some ((1 - a) * prev + a * c)
        | _, _ => none).isSome = true
      rw [hx, hy]
      rfl

theorem bfill_at_some {β : Type} (f : ℕ → Option β) (len i : ℕ)
    (hf : (f i).isSome = true) (hi : i < len) : bfillAt f len i = f i := by
  obtain ⟨m, hm⟩ : ∃ m, len - i = m + 1 := ⟨len - i - 1, by omega⟩
  unfold bfillAt
  rw [hm, List.range_succ_eq_map]
  obtain ⟨v, hv⟩ := Option.isSome_iff_exists.1 hf
  simp only [List.map_cons, List.findSome?_cons, Nat.add_zero, hv, id]

/-- C2 (amended): the signal recorded for bar `i` (`i ≥ 100`, inside the
history) depends only on candles `0..i`, provided the raw 14-period RSI at
row `i` is defined; all other features the generator reads are always
defined at processed rows, so only an undefined RSI (both rolling averages
zero) lets the backfill import post-`i` information. -/
theorem C2_no_lookahead_when_rsi_defined (clA clB : List ℚ) (i : ℕ)
    (h100 : 100 ≤ i) (hlA : i < clA.length) (hlB : i < clB.length)
    (hpre : clA.take (i + 1) = clB.take (i + 1))
    (hdef : (rsiRawAt clA i).isSome = true) :
    sigAt clA i = sigAt clB i := by
  have hj := get?_eq_of_take_eq clA clB i hpre
  have hclose : ∀ j, j ≤ i → closeAt clA j = closeAt clB j := fun j hj' => hj j hj'
  have hgain := gainAt_congr clA clB i hlA hlB hj
  have hloss := lossAt_congr clA clB i hlA hlB hj
  have havgG : avgGainAt clA i = avgGainAt clB i :=
    rollingMeanAt_congr (gainAt clA) (gainAt clB) 14 i hgain
  have havgL : avgLossAt clA i = avgLossAt clB i :=
    rollingMeanAt_congr (lossAt clA) (lossAt clB) 14 i hloss
  have hrsi : rsiRawAt clA i = rsiRawAt clB i := by
    unfold rsiRawAt
    rw [havgG, havgL]
  have hsma20 : smaAt clA 20 i = smaAt clB 20 i :=
    rollingMeanAt_congr (closeAt clA) (closeAt clB) 20 i hclose
  have hsma50 : smaAt clA 50 i = smaAt clB 50 i :=
    rollingMeanAt_congr (closeAt clA) (closeAt clB) 50 i hclose
  have hema12 : ∀ j, j ≤ i → ema12At clA j = ema12At clB j := fun j hj' =>
    ewmAt_congr (closeAt clA) (closeAt clB) (2 / 13) j
      fun k hk => hclose k (le_trans hk hj')
  have hema26 : ∀ j, j ≤ i → ema26At clA j = ema26At clB j := fun j hj' =>
    ewmAt_congr (closeAt clA) (closeAt clB) (2 / 27) j
      fun k hk => hclose k (le_trans hk hj')
  have hmacd : ∀ j, j ≤ i → macdAt clA j = macdAt clB j := by
    intro j hj'
    unfold macdAt
    rw [hema12 j hj', hema26 j hj']
  have hmacdSig : macdSignalAt clA i = macdSignalAt clB i :=
    ewmAt_congr (macdAt clA) (macdAt clB) (1 / 5) i hmacd
  have hmacdHist : macdHistAt clA i = macdHistAt clB i := by
    unfold macdHistAt
    rw [hmacd i (le_refl i), hmacdSig]
  have hbbVar : bbVarAt clA i = bbVarAt clB i := by
    unfold bbVarAt
    rw [seqOption_congr (List.range 20) _ _
      fun a _ => hclose (i - a) (Nat.sub_le i a)]
  have hbbU : bbUpperAt clA i = bbUpperAt clB i := by
    unfold bbUpperAt bbStdAt
    rw [hsma20, hbbVar]
  have hbbL : bbLowerAt clA i = bbLowerAt clB i := by
    unfold bbLowerAt bbStdAt
    rw [hsma20, hbbVar]
  have dclose : ∀ j, j ≤ i → (closeAt clA j).isSome = true := fun j hj' =>
    closeAt_isSome clA j (lt_of_le_of_lt hj' hlA)
  have dsma20 : (smaAt clA 20 i).isSome = true :=
    rollingMean_isSome (closeAt clA) 20 i (by omega)
      fun k _ => dclose (i - k) (Nat.sub_le i k)
  have dsma50 : (smaAt clA 50 i).isSome = true :=
    rollingMean_isSome (closeAt clA) 50 i (by omega)
      fun k _ => dclose (i - k) (Nat.sub_le i k)
  have dema12 : ∀ j, j ≤ i → (ema12At clA j).isSome = true := fun j hj' =>
    ewm_isSome (closeAt clA) (2 / 13) j fun k hk => dclose k (le_trans hk hj')
  have dema26 : ∀ j, j ≤ i → (ema26At clA j).isSome = true := fun j hj' =>
    ewm_isSome (closeAt clA) (2 / 27) j fun k hk => dclose k (le_trans hk hj')
  have dmacd : ∀ j, j ≤ i → (macdAt clA j).isSome = true := by
    intro j hj'
    unfold macdAt
    obtain ⟨x, hx⟩ := Option.isSome_iff_exists.1 (dema12 j hj')
    obtain ⟨y, hy⟩ := Option.isSome_iff_exists.1 (dema26 j hj')
    rw [hx, hy]
    rfl
  have dmacdSig : (macdSignalAt clA i).isSome = true :=
    ewm_isSome (macdAt clA) (1 / 5) i dmacd
  have dmacdHist : (macdHistAt clA i).isSome = true := by
    unfold macdHistAt
    obtain ⟨x, hx⟩ := Option.isSome_iff_exists.1 (dmacd i (le_refl i))
    obtain ⟨y, hy⟩ := Option.isSome_iff_exists.1 dmacdSig
    rw [hx, hy]
    rfl
  have dbbVar : (bbVarAt clA i).isSome = true := by
    unfold bbVarAt
    rw [if_neg (by omega)]
    obtain ⟨xs, hxs⟩ := Option.isSome_iff_exists.1
      (seqOption_isSome (List.range 20) _
        fun a _ => dclose (i - a) (Nat.sub_le i a))
    rw [hxs]
    rfl
  have dbbU : (bbUpperAt clA i).isSome = true := by
    unfold bbUpperAt bbStdAt
    obtain ⟨m, hm⟩ := Option.isSome_iff_exists.1 dsma20
    obtain ⟨v, hv⟩ := Option.isSome_iff_exists.1 dbbVar
    rw [hm, hv]
    rfl
  have dbbL : (bbLowerAt clA i).isSome = true := by
    unfold bbLowerAt bbStdAt
    obtain ⟨m, hm⟩ := Option.isSome_iff_exists.1 dsma20
    obtain ⟨v, hv⟩ := Option.isSome_iff_exists.1 dbbVar
    rw [hm, hv]
    rfl
  have hlat : latestAt clA i = latestAt clB i := by
    unfold latestAt
    simp only [Latest.mk.injEq]
    refine ⟨?_, ?_, ?_, ?_, ?_, ?_, ?_, ?_, ?_⟩
    · rw [bfill_at_some _ _ _ hdef hlA,
        bfill_at_some _ _ _ (by rw [← hrsi]; exact hdef) hlB, hrsi]
    · rw [bfill_at_some _ _ _ dsma20 hlA,
        bfill_at_some _ _ _ (by rw [← hsma20]; exact dsma20) hlB]
      rw [hsma20]
    · rw [bfill_at_some _ _ _ dsma50 hlA,
        bfill_at_some _ _ _ (by rw [← hsma50]; exact dsma50) hlB]
      rw [hsma50]
    · rw [bfill_at_some _ _ _ (dclose i (le_refl i)) hlA,
        bfill_at_some _ _ _ (by rw [← hclose i (le_refl i)]; exact dclose i (le_refl i)) hlB,
        hclose i (le_refl i)]
    · rw [bfill_at_some _ _ _ (dmacd i (le_refl i)) hlA,
        bfill_at_some _ _ _ (by rw [← hmacd i (le_refl i)]; exact dmacd i (le_refl i)) hlB,
        hmacd i (le_refl i)]
    · rw [bfill_at_some _ _ _ dmacdSig hlA,
        bfill_at_some _ _ _ (by rw [← hmacdSig]; exact dmacdSig) hlB, hmacdSig]
    · rw [bfill_at_some _ _ _ dmacdHist hlA,
        bfill_at_some _ _ _ (by rw [← hmacdHist]; exact dmacdHist) hlB, hmacdHist]
    · rw [bfill_at_some _ _ _ dbbU hlA,
        bfill_at_some _ _ _ (by rw [← hbbU]; exact dbbU) hlB, hbbU]
    · rw [bfill_at_some _ _ _ dbbL hlA,
        bfill_at_some _ _ _ (by rw [← hbbL]; exact dbbL) hlB, hbbL]
  unfold sigAt
  rw [hlat]

/-! ### Evaluation helpers for constant price windows -/

theorem seqOption_const {β : Type} (l : List ℕ) (f : ℕ → Option β) (v : β)
    (h : ∀ a ∈ l, f a = some v) :
    seqOption (l.map f) = some (List.replicate l.length v) := by
  induction l with
  | nil => rfl
  | cons a as ih =>
      rw [List.map_cons, h a (List.mem_cons_self a as),
        show seqOption (some v :: as.map f) =
          (match seqOption (as.map f) with
            | some xs => some (v :: xs)
            | none => none) from rfl,
        ih fun b hb => h b (List.mem_cons_of_mem a hb)]
      rfl

theorem rollingMean_const (f : ℕ → Option ℚ) (w i : ℕ) (v : ℚ)
    (hw : w ≤ i + 1) (hw0 : w ≠ 0) (h : ∀ k, k < w → f (i - k) = some v) :
    rollingMeanAt f w i = some v := by
  unfold rollingMeanAt
  rw [if_neg (by omega),
    seqOption_const (List.range w) _ v fun a ha => h a (List.mem_range.1 ha)]
  show some ((List.replicate (List.range w).length v).sum / (w : ℚ)) = some v
  rw [List.length_range, List.sum_replicate, nsmul_eq_mul,
    mul_div_cancel_left₀ v (show (w : ℚ) ≠ 0 by exact_mod_cast hw0)]

theorem ewm_const (f : ℕ → Option ℚ) (a : ℚ) (i : ℕ) (v : ℚ)
    (h : ∀ j, j ≤ i → f j = some v) : ewmAt f a i = some v := by
  induction i with
  | zero => exact h 0 (le_refl 0)
  | succ n ih =>
      show (match ewmAt f a n, f (n + 1) with
        | some prev, some c => some ((1 - a) * prev + a * c)
        | _, _ => none) = some v
      rw [ih fun j hj => h j (Nat.le_succ_of_le hj), h (n + 1) (le_refl _)]
      show some ((1 - a) * v + a * v) = some v
      rw [show (1 - a) * v + a * v = v by ring]

theorem bbVar_const (cl : List ℚ) (i : ℕ) (v : ℚ) (hi : 19 ≤ i)
    (h : ∀ k, k < 20 → closeAt cl (i - k) = some v) :
    bbVarAt cl i = some 0 := by
  unfold bbVarAt
  rw [if_neg (by omega),
    seqOption_const (List.range 20) _ v fun a ha => h a (List.mem_range.1 ha)]
  show some ((((List.replicate (List.range 20).length v)).map fun x =>
    (x - (List.replicate (List.range 20).length v).sum / 20) ^ 2).sum / 19) = some 0
  rw [List.length_range, List.sum_replicate, nsmul_eq_mul]
  norm_num

theorem generate_signal_chain {R : Type} [LinearOrderedField R] (l : Latest R) :
    generate_signal l =
      (ruleBB l).getD ((ruleMACD l).getD ((ruleSMA l).getD
        ((ruleRSI l).getD "HOLD"))) := by
  simp only [generate_signal]
  rw [step_rsi, step_sma, step_macd, step_bb]

theorem histCl_length (x : ℚ) : (histCl x).length = 102 := by
  simp [histCl]

theorem histCl_get (x : ℚ) : ∀ j, j ≤ 100 → (histCl x).get? j = some 100 := by
  intro j hj
  rw [histCl, List.get?_append (by rw [List.length_replicate]; omega),
    List.get?_eq_getElem?, List.getElem?_replicate, if_pos (by omega)]

theorem histCl_close (x : ℚ) : ∀ j, j ≤ 100 → closeAt (histCl x) j = some 100 := by
  intro j hj
  rw [closeAt]
  exact histCl_get x j hj

theorem histCl_diff0 (x : ℚ) : ∀ j, 1 ≤ j → j ≤ 100 →
    diffAt (histCl x) j = some 0 := by
  intro j h1 h2
  rw [diffAt, if_neg (by omega), histCl_get x j h2,
    histCl_get x (j - 1) (by omega)]
  norm_num

theorem histCl_gain0 (x : ℚ) : ∀ j, 1 ≤ j → j ≤ 100 →
    gainAt (histCl x) j = some 0 := by
  intro j h1 h2
  rw [gainAt, if_pos (by rw [histCl_length]; omega), histCl_diff0 x j h1 h2]
  norm_num

theorem histCl_loss0 (x : ℚ) : ∀ j, 1 ≤ j → j ≤ 100 →
    lossAt (histCl x) j = some 0 := by
  intro j h1 h2
  rw [lossAt, if_pos (by rw [histCl_length]; omega), histCl_diff0 x j h1 h2]
  norm_num

theorem histCl_rsi_none (x : ℚ) : rsiRawAt (histCl x) 100 = none := by
  rw [rsiRawAt,
    show avgGainAt (histCl x) 100 = some 0 from
      rollingMean_const _ 14 100 0 (by omega) (by omega)
        fun k hk => histCl_gain0 x (100 - k) (by omega) (by omega),
    show avgLossAt (histCl x) 100 = some 0 from
      rollingMean_const _ 14 100 0 (by omega) (by omega)
        fun k hk => histCl_loss0 x (100 - k) (by omega) (by omega)]
  norm_num

theorem histCl_sma (x : ℚ) (w : ℕ) (hw : w ≤ 101) (hw0 : w ≠ 0) :
    smaAt (histCl x) w 100 = some 100 :=
  rollingMean_const _ w 100 100 (by omega) hw0
    fun k _ => histCl_close x (100 - k) (by omega)

theorem histCl_macd (x : ℚ) : ∀ j, j ≤ 100 → macdAt (histCl x) j = some 0 := by
  intro j hj
  rw [macdAt,
    show ema12At (histCl x) j = some 100 from
      ewm_const _ _ j 100 fun k hk => histCl_close x k (le_trans hk hj),
    show ema26At (histCl x) j = some 100 from
      ewm_const _ _ j 100 fun k hk => histCl_close x k (le_trans hk hj)]
  norm_num

theorem histCl_macdSig (x : ℚ) : macdSignalAt (histCl x) 100 = some 0 :=
  ewm_const _ _ 100 0 (histCl_macd x)

theorem histCl_macdHist (x : ℚ) : macdHistAt (histCl x) 100 = some 0 := by
  rw [macdHistAt, histCl_macd x 100 (le_refl _), histCl_macdSig x]
  norm_num

theorem histCl_bbU (x : ℚ) : bbUpperAt (histCl x) 100 = some ((100 : ℚ) : ℝ) := by
  rw [bbUpperAt, histCl_sma x 20 (by omega) (by omega), bbStdAt,
    bbVar_const (histCl x) 100 100 (by omega)
      fun k _ => histCl_close x (100 - k) (by omega)]
  show some (((100 : ℚ) : ℝ) + 2 * Real.sqrt ((0 : ℚ) : ℝ)) = some ((100 : ℚ) : ℝ)
  rw [Rat.cast_zero, Real.sqrt_zero, mul_zero, add_zero]

theorem histCl_bbL (x : ℚ) : bbLowerAt (histCl x) 100 = some ((100 : ℚ) : ℝ) := by
  rw [bbLowerAt, histCl_sma x 20 (by omega) (by omega), bbStdAt,
    bbVar_const (histCl x) 100 100 (by omega)
      fun k _ => histCl_close x (100 - k) (by omega)]
  show some (((100 : ℚ) : ℝ) - 2 * Real.sqrt ((0 : ℚ) : ℝ)) = some ((100 : ℚ) : ℝ)
  rw [Rat.cast_zero, Real.sqrt_zero, mul_zero, sub_zero]

theorem bfill_skip_one {β : Type} (f : ℕ → Option β) (len i : ℕ)
    (hlen : len - i = 2) (h0 : f i = none) : bfillAt f len i = f (i + 1) := by
  unfold bfillAt
  rw [hlen]
  show (List.map (fun k => f (i + k)) [0, 1]).findSome? id = f (i + 1)
  simp only [List.map_cons, List.map_nil, List.findSome?_cons, Nat.add_zero, h0]
  cases hf : f (i + 1) <;> simp [List.findSome?, hf]

theorem histCl_latest (x : ℚ) (rv : ℚ) (hrv : rsiRawAt (histCl x) 101 = some rv) :
    latestAt (histCl x) 100 =
      { rsi := some ((rv : ℚ) : ℝ), sma_20 := some ((100 : ℚ) : ℝ),
        sma_50 := some ((100 : ℚ) : ℝ), close := some ((100 : ℚ) : ℝ),
        macd := some ((0 : ℚ) : ℝ), macd_signal := some ((0 : ℚ) : ℝ),
        macd_hist := some ((0 : ℚ) : ℝ), bb_upper := some ((100 : ℚ) : ℝ),
        bb_lower := some ((100 : ℚ) : ℝ) } := by
  unfold latestAt
  simp only [Latest.mk.injEq, histCl_length]
  refine ⟨?_, ?_, ?_, ?_, ?_, ?_, ?_, ?_, ?_⟩
  · rw [bfill_skip_one _ 102 100 rfl (histCl_rsi_none x), hrv]
    rfl
  · rw [bfill_at_some _ 102 100
      (by simp only [histCl_sma x 20 (by omega) (by omega)]; rfl) (by omega)]
    simp only [histCl_sma x 20 (by omega) (by omega)]
    rfl
  · rw [bfill_at_some _ 102 100
      (by simp only [histCl_sma x 50 (by omega) (by omega)]; rfl) (by omega)]
    simp only [histCl_sma x 50 (by omega) (by omega)]
    rfl
  · rw [bfill_at_some _ 102 100
      (by simp only [histCl_close x 100 (le_refl 100)]; rfl) (by omega)]
    simp only [histCl_close x 100 (le_refl 100)]
    rfl
  · rw [bfill_at_some _ 102 100
      (by simp only [histCl_macd x 100 (le_refl 100)]; rfl) (by omega)]
    simp only [histCl_macd x 100 (le_refl 100)]
    rfl
  · rw [bfill_at_some _ 102 100
      (by simp only [histCl_macdSig x]; rfl) (by omega)]
    simp only [histCl_macdSig x]
    rfl
  · rw [bfill_at_some _ 102 100
      (by simp only [histCl_macdHist x]; rfl) (by omega)]
    simp only [histCl_macdHist x]
    rfl
  · rw [bfill_at_some _ 102 100
      (by simp only [histCl_bbU x]; rfl) (by omega)]
    simp only [histCl_bbU x]
  · rw [bfill_at_some _ 102 100
      (by simp only [histCl_bbL x]; rfl) (by omega)]
    simp only [histCl_bbL x]

set_option maxRecDepth 100000 in
unseal Rat.mul Rat.add Rat.sub Rat.inv Rat.ofScientific in
/-- C2, counterexample: two histories that agree on every candle up to and
including bar 100 — 101 flat bars at 100 — but differ at bar 101 (200
versus 50) produce different signals at bar 100 (SELL versus BUY): the RSI
of the flat bar 100 is `NaN` and the backfill fills it from bar 101, so
the recorded signal at bar 100 looks ahead. -/
theorem C2_counterexample :
    (histCl 200).take 101 = (histCl 50).take 101 ∧
    sigAt (histCl 200) 100 ≠ sigAt (histCl 50) 100 := by
  have hA : sigAt (histCl 200) 100 = "SELL" := by
    rw [sigAt, histCl_latest 200 100 (by decide), generate_signal_chain]
    norm_num [ruleRSI, ruleSMA, ruleMACD, ruleBB]
  have hB : sigAt (histCl 50) 100 = "BUY" := by
    rw [sigAt, histCl_latest 50 0 (by decide), generate_signal_chain]
    norm_num [ruleRSI, ruleSMA, ruleMACD, ruleBB]
  refine ⟨by decide, ?_⟩
  rw [hA, hB]
  decide

set_option maxRecDepth 100000 in
unseal Rat.mul Rat.add Rat.sub Rat.inv Rat.ofScientific in
/-- C2 witness: the no-look-ahead theorem applied to a strictly rising
101-bar history at bar 100, where the raw RSI is defined (it is 100). -/
theorem C2_no_lookahead_witness :
    sigAt ((List.range 101).map fun k => (k : ℚ)) 100 =
      sigAt ((List.range 101).map fun k => (k : ℚ)) 100 :=
  C2_no_lookahead_when_rsi_defined ((List.range 101).map fun k => (k : ℚ))
    ((List.range 101).map fun k => (k : ℚ)) 100 (by decide) (by decide)
    (by decide) rfl (by decide)
